import Mathlib

/-!
Shallow embedding of `src/pre-processing/parser_clean.py` (a Darshan log
to CSV feature-table converter).  Raw text is modelled as `List Char`
(`Str`), so that every string operation used by the Python code
(`strip`, `split`, `startswith`, substring containment) is a structural
Lean function that the kernel can evaluate.  Python `float` values are
modelled by `PyFloat` (exact rationals plus the IEEE special values
`inf`, `-inf`, `nan`); finite parses are kept exact as rationals — none
of the claims settled below depends on float64 rounding or overflow.
-/

/-- Text is modelled as a list of characters. -/
abbrev Str := List Char

/-- ASCII whitespace recognised by Python's `str.strip` (the practically
relevant subset; the reports are ASCII). -/
def isWS (c : Char) : Bool :=
  c = ' ' || c = '\t' || c = '\n' || c = '\x0d' || c = '\x0b' || c = '\x0c'

/-- Drop leading whitespace. -/
def dropWS : Str → Str
  | [] => []
  | c :: cs => if isWS c then dropWS cs else c :: cs

/-- Drop trailing whitespace. -/
def stripRight : Str → Str
  | [] => []
  | c :: cs =>
    match stripRight cs with
    | [] => if isWS c then [] else [c]
    | r => c :: r

/-- Python `str.strip()`: remove surrounding whitespace. -/
def strip (s : Str) : Str := dropWS (stripRight s)

/-- Python `s.split(sep)` for a one-character separator `sep` (no limit):
`"a:b:c"` splits into `["a","b","c"]`, and the result is never empty. -/
def splitOnChar (sep : Char) : Str → List Str
  | [] => [[]]
  | c :: cs =>
    let r := splitOnChar sep cs
    if c = sep then [] :: r
    else
      match r with
      | [] => [[c]]
      | h :: t => (c :: h) :: t

/-- Python `s.split(sep, 1)` for a one-character separator, returning
`none` when the separator does not occur (in which case the Python call
returns the one-element list `[s]`). -/
def splitFirst (sep : Char) : Str → Option (Str × Str)
  | [] => none
  | c :: cs =>
    if c = sep then some ([], cs)
    else
      match splitFirst sep cs with
      | some (a, b) => some (c :: a, b)
      | none => none

/-- Python substring containment `pat in s`. -/
def containsSub (pat : Str) : Str → Bool
  | [] => pat.isPrefixOf ([] : Str)
  | c :: cs => pat.isPrefixOf (c :: cs) || containsSub pat cs

/-- Everything strictly before the first occurrence of `c` (the whole
string when `c` is absent). -/
def takeUntilChar (c : Char) : Str → Str
  | [] => []
  | x :: xs => if x = c then [] else x :: takeUntilChar c xs

/-- Everything strictly after the first occurrence of `c` (empty when
`c` is absent). -/
def afterFirstChar (c : Char) : Str → Str
  | [] => []
  | x :: xs => if x = c then xs else afterFirstChar c xs

/-- Decimal digit value of a character, if any. -/
def digitVal (c : Char) : Option Nat :=
  if '0' ≤ c ∧ c ≤ '9' then some (c.toNat - 48) else none

/-- Read a maximal run of leading decimal digits. -/
def readDigits : Str → List Nat × Str
  | [] => ([], [])
  | c :: cs =>
    match digitVal c with
    | some d =>
      let (ds, r) := readDigits cs
      (d :: ds, r)
    | none => ([], c :: cs)

/-- Value of a digit list read most-significant first. -/
def digitsToNat (ds : List Nat) : Nat := ds.foldl (fun a d => 10 * a + d) 0

/-- Lower-case an ASCII letter. -/
def toLowerAscii (c : Char) : Char :=
  if 'A' ≤ c ∧ c ≤ 'Z' then Char.ofNat (c.toNat + 32) else c

/-- Case-insensitive comparison against an (already lower-case) pattern. -/
def lowerEq (s t : Str) : Bool := s.map toLowerAscii == t

/-- Decimal digit character. -/
def digitChar (n : Nat) : Char := Char.ofNat (48 + n)

/-- Decimal digits of `n`, most significant first (fuel-driven). -/
def natToStrAux : Nat → Nat → Str
  | 0, _ => []
  | fuel + 1, n =>
    if n = 0 then [] else natToStrAux fuel (n / 10) ++ [digitChar (n % 10)]

/-- Python `str(n)` for a natural number. -/
def natToStr (n : Nat) : Str := if n = 0 then ['0'] else natToStrAux n n

/-- Python `str(i)` for an integer. -/
def intToStr (i : Int) : Str :=
  if i < 0 then '-' :: natToStr i.natAbs else natToStr i.natAbs

/-- A Python float: an exact finite value (kept as a rational — the
claims settled here do not depend on float64 rounding or overflow), or
one of the IEEE special values. -/
inductive PyFloat where
  | finite (q : ℚ)
  | inf
  | neginf
  | nan
deriving DecidableEq

/-- Python `int(s)`: surrounding whitespace, an optional sign, then a
nonempty digit run (the underscore digit-separator extension is not
modelled; no claim depends on it).  `none` models the `ValueError`. -/
def pyInt (s : Str) : Option Int :=
  let s := strip s
  let (neg, s) :=
    match s with
    | '+' :: r => (false, r)
    | '-' :: r => (true, r)
    | _ => (false, s)
  let (ds, rest) := readDigits s
  if ds = [] ∨ rest ≠ [] then none
  else some (if neg then -(digitsToNat ds : Int) else (digitsToNat ds : Int))

/-- Unsigned part of Python's float grammar: `digits [. digits] [exp]`
with at least one mantissa digit; `none` models a `ValueError`. -/
def pyParseNumber (s : Str) : Option ℚ :=
  let (ip, r1) := readDigits s
  let (fp, r2) :=
    match r1 with
    | '.' :: r => readDigits r
    | _ => ([], r1)
  if ip = [] ∧ fp = [] then none
  else
    let mant : ℚ := (digitsToNat ip : ℚ) + (digitsToNat fp : ℚ) / (10 : ℚ) ^ fp.length
    match r2 with
    | [] => some mant
    | e :: r3 =>
      if e = 'e' ∨ e = 'E' then
        let (eneg, r4) :=
          match r3 with
          | '+' :: r => (false, r)
          | '-' :: r => (true, r)
          | _ => (false, r3)
        let (eds, r5) := readDigits r4
        if eds = [] ∨ r5 ≠ [] then none
        else
          let ex : ℤ := if eneg then -(digitsToNat eds : Int) else (digitsToNat eds : Int)
          some (mant * (10 : ℚ) ^ ex)
      else none

/-- Python `float(s)`: strip whitespace, optional sign, then either an
`inf`/`infinity`/`nan` literal (case-insensitive) or a number.  `none`
models the `ValueError` raised on a malformed string. -/
def pyParseFloat (s : Str) : Option PyFloat :=
  let s := strip s
  let (neg, s) :=
    match s with
    | '+' :: r => (false, r)
    | '-' :: r => (true, r)
    | _ => (false, s)
  if lowerEq s ("inf".data) || lowerEq s ("infinity".data) then
    some (if neg then PyFloat.neginf else PyFloat.inf)
  else if lowerEq s ("nan".data) then some PyFloat.nan
  else
    match pyParseNumber s with
    | some q => some (PyFloat.finite (if neg then -q else q))
    | none => none

/-- A float value as produced by the numeric pipeline: a finite real, an
infinity, or NaN. -/
inductive FloatVal where
  | num (x : ℝ)
  | inf
  | neginf
  | nan

/-- Whether a float value is finite. -/
def FloatVal.isFinite : FloatVal → Bool
  | .num _ => true
  | _ => false

/-- Python float addition `v + 1` (IEEE semantics on the special values;
exact on finite values). -/
def pyAdd1 : PyFloat → PyFloat
  | .finite q => .finite (q + 1)
  | v => v

/-- IEEE semantics of `np.log10`: positive finite arguments give the real
logarithm, `0` gives `-inf`, negative arguments give NaN, `inf` gives
`inf`, `-inf` and NaN give NaN. -/
noncomputable def np_log10 : PyFloat → FloatVal
  | .finite q => if 0 < q then .num (Real.logb 10 (q : ℝ))
                 else if q = 0 then .neginf else .nan
  | .inf => .inf
  | .neginf => .nan
  | .nan => .nan

/-- Embedding of `normalize_value` (`parser_clean.py` lines 93-100):
`float(value)` then `np.log10(value + 1)`, with the `ValueError` /
`TypeError` handler returning `0.0`.  The input is an `Option Str`
because the Python function also accepts a non-string (absent) argument,
whose `TypeError` is caught by the same handler. -/
noncomputable def normalize_value : Option Str → FloatVal
  | none => .num 0
  | some s =>
    match pyParseFloat s with
    | some v => np_log10 (pyAdd1 v)
    | none => .num 0

/-- A CounterSet: the Python dict `counters` mapping counter names to raw
string values.  Modelled as an association list where insertion prepends,
so that `List.lookup` returns the most recent binding — exactly the
dict's get/overwrite semantics.  Only lookups are observable. -/
abbrev CounterSet := List (Str × Str)

/-- Dict assignment `counters[key] = value`. -/
def csInsert (k v : Str) (c : CounterSet) : CounterSet := (k, v) :: c

/-- One line of the totals pass (`parser_clean.py` lines 27-36): a line
starting with `total` is split on the first colon into key and value
(both stripped); a key starting with `total_POSIX_` loses its `total_`
prefix (Python `key.replace(..., 1)` on a string having that prefix,
which drops the first 6 characters). -/
def totalsStep (c : CounterSet) (line : Str) : CounterSet :=
  if ("total".data).isPrefixOf line then
    match splitFirst ':' (strip line) with
    | some (k0, v0) =>
      let key := strip k0
      let value := strip v0
      let key := if ("total_POSIX_".data).isPrefixOf key then key.drop 6 else key
      csInsert key value c
    | none => c
  else c

/-- The totals pass over the whole totals report. -/
def totalsPass (lines : List Str) (c : CounterSet) : CounterSet :=
  lines.foldl totalsStep c

/-- One line of the performance pass (`parser_clean.py` lines 43-60):
module-header markers update the current-module state; an
`agg_perf_by_slowest:` line seen while the current module is POSIX
stores, under `POSIX_PERF_MIBS`, the fragment `split(':')[1]` stripped,
with a trailing `#` comment removed and stripped again. -/
def perfStep (acc : Option Str × CounterSet) (line : Str) : Option Str × CounterSet :=
  let (cur, counters) := acc
  if containsSub ("# POSIX module data".data) line then (some ("POSIX".data), counters)
  else if containsSub ("# MPI-IO module data".data) line then (some ("MPIIO".data), counters)
  else if containsSub ("# STDIO module data".data) line then (some ("STDIO".data), counters)
  else if containsSub ("agg_perf_by_slowest:".data) line && cur == some ("POSIX".data) then
    let parts := splitOnChar ':' line
    if 1 < parts.length then
      let perf_str := strip (parts.getD 1 [])
      let perf_value := strip ((splitOnChar '#' perf_str).headD [])
      (cur, csInsert ("POSIX_PERF_MIBS".data) perf_value counters)
    else (cur, counters)
  else (cur, counters)

/-- The performance pass: a single scan with the current-module state
starting at `none`. -/
def perfPass (lines : List Str) (c : CounterSet) : CounterSet :=
  (lines.foldl perfStep (none, c)).2

/-- The collection phase of the Lustre pass (`parser_clean.py` lines
70-77): accumulate the integer second fields of `LUSTRE_STRIPE_WIDTH` /
`LUSTRE_STRIPE_SIZE` tab-separated records.  A matching record whose
second field is not an integer makes Python's `int()` raise an uncaught
`ValueError`; this is the `Except.error` outcome. -/
def lustreCollect : List Str → List Int × List Int → Except Unit (List Int × List Int)
  | [], acc => .ok acc
  | l :: ls, acc =>
    let parts := splitOnChar '\t' (strip l)
    if 2 ≤ parts.length then
      if parts.headD [] = "LUSTRE_STRIPE_WIDTH".data then
        match pyInt (parts.getD 1 []) with
        | some n => lustreCollect ls (acc.1 ++ [n], acc.2)
        | none => .error ()
      else if parts.headD [] = "LUSTRE_STRIPE_SIZE".data then
        match pyInt (parts.getD 1 []) with
        | some n => lustreCollect ls (acc.1, acc.2 ++ [n])
        | none => .error ()
      else lustreCollect ls acc
    else lustreCollect ls acc

/-- Truncation toward zero, as Python's `int()` applied to a float; on a
rational `q` this is `q.num.tdiv q.den`. -/
def truncQ (q : ℚ) : Int := q.num.tdiv (q.den : Int)

/-- Arithmetic mean of an integer list, truncated toward zero
(`int(np.mean(xs))`; the mean is exact here — no claim depends on
float64 rounding of the mean). -/
def truncMean (l : List Int) : Int := truncQ ((l.sum : ℚ) / (l.length : ℚ))

/-- The reduction phase of the Lustre pass (`parser_clean.py` lines
79-82): each non-empty sample list is reduced to its truncated mean and
stored as a string; an empty list inserts nothing. -/
def lustreReduce (ws ss : List Int) (c : CounterSet) : CounterSet :=
  let c := if ws ≠ [] then csInsert ("LUSTRE_STRIPE_WIDTH".data) (intToStr (truncMean ws)) c else c
  if ss ≠ [] then csInsert ("LUSTRE_STRIPE_SIZE".data) (intToStr (truncMean ss)) c else c

/-- The nprocs pass (`parser_clean.py` lines 85-89): the first totals
line starting with `# nprocs:` stores `line.split(':')[1].strip()` under
`nprocs` (the `break` makes only the first match count). -/
def nprocsPass (lines : List Str) (c : CounterSet) : CounterSet :=
  match lines.find? (fun l => ("# nprocs:".data).isPrefixOf l) with
  | some l => csInsert ("nprocs".data) (strip ((splitOnChar ':' l).getD 1 [])) c
  | none => c

/-- The three materialized reports for one trace file.  `total = none`
models a nonzero exit of the mandatory `darshan-parser --total`
invocation.  The performance and layout invocations' exit codes are
ignored by the code; a failed invocation leaves an empty redirected
file, i.e. an empty line list. -/
structure Reports where
  total : Option (List Str)
  perf : List Str
  lustre : List Str

/-- Embedding of `parse_darshan_file` (`parser_clean.py` lines 15-91):
totals pass, performance pass, Lustre collection and reduction, then the
nprocs pass.  `Except.ok none` is the Python `return None` on mandatory
invocation failure; `Except.error` is an uncaught exception from `int()`
on a malformed Lustre record. -/
def parse_darshan_file (r : Reports) : Except Unit (Option CounterSet) :=
  match r.total with
  | none => .ok none
  | some tlines =>
    let counters := totalsPass tlines []
    let counters := perfPass r.perf counters
    match lustreCollect r.lustre ([], []) with
    | .error e => .error e
    | .ok (ws, ss) =>
      let counters := lustreReduce ws ss counters
      .ok (some (nprocsPass tlines counters))

/-- Output of the row-building loop for one file (`parser_clean.py`
lines 141-172): the numeric row, the per-file `missing_counters` list,
the per-file `found_counters` list (modelled as the resolved column
names; the code additionally formats the normalized value into the
logged string, which no claim observes), and `defaulted`, the sequence
of headers for which the `else` branch incremented the global
missing-counter tally. -/
structure RowOut where
  row : List FloatVal
  missing : List Str
  found : List Str
  defaulted : List Str

/-- Embedding of the per-file row loop (`parser_clean.py` lines
145-172): the reserved header `tag` resolves via `POSIX_PERF_MIBS` with
string default `"0"`; any other header tries the exact key, then the
`total_`-prefixed key; otherwise the cell is the literal `0.0`, the
header joins the per-file missing list, and the global tally is
incremented (recorded in `defaulted`). -/
noncomputable def buildRow (headers : List Str) (counters : CounterSet) : RowOut :=
  match headers with
  | [] => ⟨[], [], [], []⟩
  | header :: rest =>
    let r := buildRow rest counters
    if header = "tag".data then
      let value := (List.lookup ("POSIX_PERF_MIBS".data) counters).getD ("0".data)
      match List.lookup ("POSIX_PERF_MIBS".data) counters with
      | none =>
        ⟨normalize_value (some value) :: r.row,
         ("POSIX_PERF_MIBS (for tag)".data) :: r.missing, r.found, r.defaulted⟩
      | some _ =>
        ⟨normalize_value (some value) :: r.row,
         r.missing, ("tag".data) :: r.found, r.defaulted⟩
    else
      match List.lookup header counters with
      | some v =>
        ⟨normalize_value (some v) :: r.row, r.missing, header :: r.found, r.defaulted⟩
      | none =>
        match List.lookup ("total_".data ++ header) counters with
        | some v =>
          ⟨normalize_value (some v) :: r.row, r.missing, header :: r.found, r.defaulted⟩
        | none =>
          ⟨FloatVal.num 0 :: r.row, header :: r.missing, r.found, header :: r.defaulted⟩

/-- One increment of the global missing-counter tally
(`global_missing_counters[header] += 1` with default 0): bump the first
matching entry, or append a fresh entry with count 1. -/
def bump : List (Str × Nat) → Str → List (Str × Nat)
  | [], h => [(h, 1)]
  | (k, n) :: t, h => if k = h then (k, n + 1) :: t else (k, n) :: bump t h

/-- Count recorded in a tally for a column (0 when absent). -/
def tallyCount (t : List (Str × Nat)) (h : Str) : Nat := (List.lookup h t).getD 0

/-- State threaded through the per-file loop of `process_darshan_logs`:
the rows written to the CSV so far and the global missing-counter
tally. -/
structure RunState where
  rows : List (List FloatVal)
  tally : List (Str × Nat)

/-- Embedding of the per-file loop of `process_darshan_logs`
(`parser_clean.py` lines 132-185): a `None` parse result skips the file
(no row, no tally update); a parsed file appends its row and applies the
tally increments; an uncaught exception aborts the loop with the state
reached so far (`Except.error`). -/
noncomputable def runLoop (headers : List Str) : List Reports → RunState → Except RunState RunState
  | [], s => .ok s
  | r :: rest, s =>
    match parse_darshan_file r with
    | .error _ => .error s
    | .ok none => runLoop headers rest s
    | .ok (some counters) =>
      let out := buildRow headers counters
      runLoop headers rest ⟨s.rows ++ [out.row], out.defaulted.foldl bump s.tally⟩

/-- Observable outcome of one run of `process_darshan_logs`: the data
rows written, the final tally, whether the CSV (with its header row) was
created, whether the scratch directory was removed at the end
(`rm -rf temp_dir`, line 199), and whether the run died on an uncaught
exception.  The scratch directory is created unconditionally
(`os.makedirs`, line 109) before file discovery. -/
structure RunOutcome where
  rows : List (List FloatVal)
  tally : List (Str × Nat)
  headerWritten : Bool
  tempDirRemoved : Bool
  crashed : Bool

/-- Embedding of `process_darshan_logs` (`parser_clean.py` lines
102-199): with zero discovered files the function prints a diagnostic
and returns before creating the CSV and before the cleanup line;
otherwise the header row is written, the loop runs, and the scratch
directory is removed only when the loop finishes without an uncaught
exception. -/
noncomputable def process_darshan_logs (headers : List Str) (files : List Reports) : RunOutcome :=
  if files.isEmpty then ⟨[], [], false, false, false⟩
  else
    match runLoop headers files ⟨[], []⟩ with
    | .ok s => ⟨s.rows, s.tally, true, true, false⟩
    | .error s => ⟨s.rows, s.tally, true, false, true⟩

/-! Helper lemmas about the character-list string operations. -/

/-- Splitting never yields an empty list of fragments. -/
theorem splitOnChar_ne_nil (sep : Char) (s : Str) : splitOnChar sep s ≠ [] := by
  induction s with
  | nil => simp [splitOnChar]
  | cons c cs ih =>
    simp only [splitOnChar]
    by_cases hc : c = sep
    · simp [hc]
    · simp only [if_neg hc]
      cases h : splitOnChar sep cs with
      | nil => simp
      | cons a t => simp

/-- The first fragment of a split is the text before the first
separator. -/
theorem splitOnChar_headD (sep : Char) (s : Str) :
    (splitOnChar sep s).headD [] = takeUntilChar sep s := by
  induction s with
  | nil => rfl
  | cons c cs ih =>
    simp only [splitOnChar, takeUntilChar]
    by_cases hc : c = sep
    · simp [hc]
    · simp only [if_neg hc]
      cases h : splitOnChar sep cs with
      | nil => exact absurd h (splitOnChar_ne_nil sep cs)
      | cons a t =>
        simp only [List.headD_cons]
        rw [h] at ih
        simp only [List.headD_cons] at ih
        simp [ih]

/-- When the separator occurs, the split has at least two fragments. -/
theorem splitOnChar_length_ge_two (sep : Char) (s : Str) (hs : sep ∈ s) :
    1 < (splitOnChar sep s).length := by
  induction s with
  | nil => cases hs
  | cons c cs ih =>
    simp only [splitOnChar]
    by_cases hc : c = sep
    · simp only [if_pos hc, List.length_cons]
      have := List.length_pos_of_ne_nil (splitOnChar_ne_nil sep cs)
      omega
    · simp only [if_neg hc]
      have hmem : sep ∈ cs := by
        cases hs with
        | head => exact absurd rfl hc
        | tail _ h => exact h
      cases h : splitOnChar sep cs with
      | nil => exact absurd h (splitOnChar_ne_nil sep cs)
      | cons a t =>
        have := ih hmem
        rw [h] at this
        simpa using this

/-- When the separator occurs, the second fragment is the text between
the first separator and the next one. -/
theorem splitOnChar_getD_one (sep : Char) (s : Str) (hs : sep ∈ s) :
    (splitOnChar sep s).getD 1 [] = takeUntilChar sep (afterFirstChar sep s) := by
  induction s with
  | nil => cases hs
  | cons c cs ih =>
    simp only [splitOnChar, afterFirstChar]
    by_cases hc : c = sep
    · simp only [if_pos hc]
      cases h : splitOnChar sep cs with
      | nil => exact absurd h (splitOnChar_ne_nil sep cs)
      | cons a t =>
        have hh := splitOnChar_headD sep cs
        rw [h] at hh
        simp only [List.headD_cons] at hh
        simp [hh]
    · simp only [if_neg hc]
      have hmem : sep ∈ cs := by
        cases hs with
        | head => exact absurd rfl hc
        | tail _ h => exact h
      cases h : splitOnChar sep cs with
      | nil => exact absurd h (splitOnChar_ne_nil sep cs)
      | cons a t =>
        have := ih hmem
        rw [h] at this
        simpa using this

/-- A character of a contained pattern occurs in the containing
string. -/
theorem containsSub_mem (pat s : Str) (a : Char) (h : containsSub pat s = true)
    (ha : a ∈ pat) : a ∈ s := by
  induction s with
  | nil =>
    simp only [containsSub] at h
    have : pat <+: ([] : Str) := List.isPrefixOf_iff_prefix.mp h
    have := this.subset ha
    cases this
  | cons c cs ih =>
    simp only [containsSub, Bool.or_eq_true] at h
    cases h with
    | inl h => exact (List.isPrefixOf_iff_prefix.mp h).subset ha
    | inr h => exact List.mem_cons_of_mem c (ih h)

/-- Stripping a string that starts with a non-whitespace character keeps
that first character. -/
theorem strip_cons_head (c : Char) (s : Str) (hc : isWS c = false) :
    ∃ t, strip (c :: s) = c :: t := by
  simp only [strip, stripRight]
  cases h : stripRight s with
  | nil => exact ⟨[], by simp [hc, dropWS]⟩
  | cons a t => exact ⟨a :: t, by simp [hc, dropWS]⟩

/-- A `splitFirst` on a string starting with a non-separator character
keeps that character at the head of the left part. -/
theorem splitFirst_cons_head (sep c : Char) (s : Str) (hc : c ≠ sep) (a b : Str)
    (h : splitFirst sep (c :: s) = some (a, b)) : ∃ a2, a = c :: a2 := by
  simp only [splitFirst, if_neg hc] at h
  cases h2 : splitFirst sep s with
  | none => rw [h2] at h; cases h
  | some p =>
    rw [h2] at h
    cases p with
    | mk x y =>
      simp only [Option.some.injEq, Prod.mk.injEq] at h
      exact ⟨x, h.1.symm⟩

/-- Every key inserted by the totals pass starts with `t` (a `total...`
key) or `P` (a stripped `POSIX_...` key), so lookups of keys starting
with any other character pass through `totalsStep` unchanged. -/
theorem totalsStep_lookup (c : CounterSet) (line k : Str)
    (ht : k.head? ≠ some 't') (hp : k.head? ≠ some 'P') :
    List.lookup k (totalsStep c line) = List.lookup k c := by
  simp only [totalsStep]
  by_cases hpre : ("total".data).isPrefixOf line
  · simp only [if_pos hpre]
    obtain ⟨r, hr⟩ := List.isPrefixOf_iff_prefix.mp hpre
    have hline : line = 't' :: ("otal".data ++ r) := by rw [← hr]; rfl
    obtain ⟨u, hu⟩ := strip_cons_head 't' ("otal".data ++ r) (by decide)
    rw [hline, hu]
    cases hsf : splitFirst ':' ('t' :: u) with
    | none => rfl
    | some p =>
      cases p with
      | mk k0 v0 =>
        obtain ⟨a2, ha2⟩ := splitFirst_cons_head ':' 't' u (by decide) k0 v0 hsf
        subst ha2
        obtain ⟨b2, hb2⟩ := strip_cons_head 't' a2 (by decide)
        dsimp only
        rw [hb2]
        by_cases hpp : ("total_POSIX_".data).isPrefixOf ('t' :: b2)
        · simp only [if_pos hpp]
          obtain ⟨r2, hr2⟩ := List.isPrefixOf_iff_prefix.mp hpp
          have hkey : ('t' :: b2).drop 6 = 'P' :: ("OSIX_".data ++ r2) := by
            rw [← hr2]; rfl
          rw [hkey]
          simp only [csInsert, List.lookup]
          have : (k == 'P' :: ("OSIX_".data ++ r2)) = false := by
            cases k with
            | nil => rfl
            | cons kh kt =>
              simp only [List.head?] at hp
              have : kh ≠ 'P' := fun he => hp (by rw [he])
              simp [List.cons_beq_cons, this]
          rw [this]
        · simp only [if_neg hpp]
          simp only [csInsert, List.lookup]
          have : (k == 't' :: b2) = false := by
            cases k with
            | nil => rfl
            | cons kh kt =>
              simp only [List.head?] at ht
              have : kh ≠ 't' := fun he => ht (by rw [he])
              simp [List.cons_beq_cons, this]
          rw [this]
  · simp only [if_neg hpre]

/-- Lookup of a key starting with neither `t` nor `P` is unchanged by
the whole totals pass. -/
theorem totalsPass_lookup (t : List Str) (c : CounterSet) (k : Str)
    (ht : k.head? ≠ some 't') (hp : k.head? ≠ some 'P') :
    List.lookup k (totalsPass t c) = List.lookup k c := by
  induction t generalizing c with
  | nil => rfl
  | cons l ls ih =>
    simp only [totalsPass, List.foldl_cons] at *
    rw [ih (totalsStep c l), totalsStep_lookup c l k ht hp]

/-- Lookup of a different key passes through a dict insertion. -/
theorem lookup_csInsert_ne (k k2 v : Str) (c : CounterSet) (h : k ≠ k2) :
    List.lookup k (csInsert k2 v c) = List.lookup k c := by
  have hb : (k == k2) = false := beq_eq_false_iff_ne.mpr h
  simp [csInsert, List.lookup, hb]

/-- Lookup of the inserted key returns the inserted value. -/
theorem lookup_csInsert_self (k v : Str) (c : CounterSet) :
    List.lookup k (csInsert k v c) = some v := by
  simp [csInsert, List.lookup]

/-- A performance-pass step either leaves the counters unchanged or
inserts under `POSIX_PERF_MIBS`. -/
theorem perfStep_snd (st : Option Str × CounterSet) (line : Str) :
    (perfStep st line).2 = st.2 ∨
      ∃ v, (perfStep st line).2 = csInsert ("POSIX_PERF_MIBS".data) v st.2 := by
  cases st with
  | mk cur counters =>
    simp only [perfStep]
    split
    · exact Or.inl rfl
    · split
      · exact Or.inl rfl
      · split
        · exact Or.inl rfl
        · split
          · split
            · exact Or.inr ⟨_, rfl⟩
            · exact Or.inl rfl
          · exact Or.inl rfl

/-- Lookup of any key other than `POSIX_PERF_MIBS` is unchanged by the
performance scan, whatever the starting module state. -/
theorem perfFold_lookup (lines : List Str) (st : Option Str × CounterSet) (k : Str)
    (hk : k ≠ "POSIX_PERF_MIBS".data) :
    List.lookup k ((lines.foldl perfStep st).2) = List.lookup k st.2 := by
  induction lines generalizing st with
  | nil => rfl
  | cons l ls ih =>
    simp only [List.foldl_cons]
    rw [ih (perfStep st l)]
    cases perfStep_snd st l with
    | inl h => rw [h]
    | inr h =>
      obtain ⟨v, hv⟩ := h
      rw [hv, lookup_csInsert_ne _ _ _ _ hk]

/-- Lookup of any key other than `POSIX_PERF_MIBS` is unchanged by the
performance pass. -/
theorem perfPass_lookup (lines : List Str) (c : CounterSet) (k : Str)
    (hk : k ≠ "POSIX_PERF_MIBS".data) :
    List.lookup k (perfPass lines c) = List.lookup k c :=
  perfFold_lookup lines (none, c) k hk

/-- A performance-pass step with the current module not POSIX never
touches the counters. -/
theorem perfStep_not_posix (cur : Option Str) (c : CounterSet) (line : Str)
    (h : cur ≠ some ("POSIX".data)) : (perfStep (cur, c) line).2 = c := by
  simp only [perfStep]
  split
  · rfl
  · split
    · rfl
    · split
      · rfl
      · split
        · rename_i hcond
          simp only [Bool.and_eq_true, beq_iff_eq] at hcond
          exact absurd hcond.2 h
        · rfl

/-- While no line has matched the POSIX module-header marker, the
current-module state never becomes POSIX and the counters are never
written: the state after scanning any such prefix of the report is
exactly the starting counters. -/
theorem perfFold_no_posix_header (lines : List Str) (m : Option Str) (c : CounterSet)
    (hm : m ≠ some ("POSIX".data))
    (hl : ∀ l ∈ lines, containsSub ("# POSIX module data".data) l = false) :
    (lines.foldl perfStep (m, c)).2 = c ∧
      (lines.foldl perfStep (m, c)).1 ≠ some ("POSIX".data) := by
  induction lines generalizing m with
  | nil => exact ⟨rfl, hm⟩
  | cons l ls ih =>
    simp only [List.foldl_cons]
    have hcur : (perfStep (m, c) l).2 = c := perfStep_not_posix m c l hm
    have hmod : (perfStep (m, c) l).1 ≠ some ("POSIX".data) := by
      simp only [perfStep]
      split
      · rename_i hcond
        rw [hl l (List.mem_cons_self l ls)] at hcond
        cases hcond
      · split
        · simp
        · split
          · simp
          · split
            · split
              · exact hm
              · exact hm
            · exact hm
    obtain ⟨m2, c2, hps⟩ : ∃ m2 c2, perfStep (m, c) l = (m2, c2) := ⟨_, _, rfl⟩
    rw [hps] at hcur hmod
    simp only at hcur hmod
    subst hcur
    rw [hps]
    exact ih m2 hmod (fun x hx => hl x (List.mem_cons_of_mem l hx))

/-- While no line contains the aggregate-performance marker, the scan
never writes the counters (whatever the module state does). -/
theorem perfFold_no_agg (lines : List Str) (m : Option Str) (c : CounterSet)
    (hl : ∀ l ∈ lines, containsSub ("agg_perf_by_slowest:".data) l = false) :
    (lines.foldl perfStep (m, c)).2 = c := by
  induction lines generalizing m with
  | nil => rfl
  | cons l ls ih =>
    simp only [List.foldl_cons]
    have hcur : (perfStep (m, c) l).2 = c := by
      simp only [perfStep]
      split
      · rfl
      · split
        · rfl
        · split
          · rfl
          · split
            · rename_i hcond
              rw [hl l (List.mem_cons_self l ls)] at hcond
              simp at hcond
            · rfl
    obtain ⟨m2, c2, hps⟩ : ∃ m2 c2, perfStep (m, c) l = (m2, c2) := ⟨_, _, rfl⟩
    rw [hps] at hcur
    simp only at hcur
    subst hcur
    rw [hps]
    exact ih m2 (fun x hx => hl x (List.mem_cons_of_mem l hx))

/-- The value the scan stores for a non-header aggregate-performance
line: the fragment between the first colon and the following colon (or
the end of the line), stripped, with a trailing `#` comment removed and
stripped again. -/
def perfStoredValue (line : Str) : Str :=
  strip (takeUntilChar '#' (strip (takeUntilChar ':' (afterFirstChar ':' line))))

/-- When the current module is POSIX and a line contains the
aggregate-performance marker but no module-header marker, the step
stores `perfStoredValue line` under `POSIX_PERF_MIBS`. -/
theorem perfStep_store (c : CounterSet) (line : Str)
    (hagg : containsSub ("agg_perf_by_slowest:".data) line = true)
    (hpos : containsSub ("# POSIX module data".data) line = false)
    (hmpi : containsSub ("# MPI-IO module data".data) line = false)
    (hstd : containsSub ("# STDIO module data".data) line = false) :
    (perfStep (some ("POSIX".data), c) line).2 =
      csInsert ("POSIX_PERF_MIBS".data) (perfStoredValue line) c := by
  have hcolon : ':' ∈ line := containsSub_mem _ line ':' hagg (by decide)
  have hlen : 1 < (splitOnChar ':' line).length := splitOnChar_length_ge_two ':' line hcolon
  simp only [perfStep, hpos, hmpi, hstd, hagg]
  simp only [Bool.false_eq_true, if_false, Bool.true_and, beq_self_eq_true, if_true,
    if_pos hlen]
  rw [splitOnChar_getD_one ':' line hcolon, splitOnChar_headD]
  rfl

/-- Lookup of a key other than `nprocs` is unchanged by the nprocs
pass. -/
theorem nprocsPass_lookup (t : List Str) (c : CounterSet) (k : Str)
    (hk : k ≠ "nprocs".data) :
    List.lookup k (nprocsPass t c) = List.lookup k c := by
  simp only [nprocsPass]
  cases t.find? (fun l => ("# nprocs:".data).isPrefixOf l) with
  | none => rfl
  | some l => exact lookup_csInsert_ne _ _ _ _ hk

/-- Lookup of `LUSTRE_STRIPE_WIDTH` after the Lustre reduction: present
with the truncated mean exactly when the width samples are non-empty. -/
theorem lustreReduce_lookup_width (ws ss : List Int) (c : CounterSet) :
    List.lookup ("LUSTRE_STRIPE_WIDTH".data) (lustreReduce ws ss c) =
      if ws = [] then List.lookup ("LUSTRE_STRIPE_WIDTH".data) c
      else some (intToStr (truncMean ws)) := by
  simp only [lustreReduce]
  by_cases hw : ws = []
  · simp only [hw, ne_eq, not_true_eq_false, if_false, if_pos hw]
    by_cases hs : ss = []
    · simp [hs]
    · simp only [ne_eq, hs, not_false_eq_true, if_true, if_pos]
      exact lookup_csInsert_ne _ _ _ _ (by decide)
  · simp only [ne_eq, hw, not_false_eq_true, if_true, if_neg hw]
    by_cases hs : ss = []
    · simp only [hs, not_true_eq_false, if_false]
      exact lookup_csInsert_self _ _ _
    · simp only [hs, not_false_eq_true, if_true]
      rw [lookup_csInsert_ne _ _ _ _ (by decide)]
      exact lookup_csInsert_self _ _ _

/-- Lookup of `LUSTRE_STRIPE_SIZE` after the Lustre reduction: present
with the truncated mean exactly when the size samples are non-empty. -/
theorem lustreReduce_lookup_size (ws ss : List Int) (c : CounterSet) :
    List.lookup ("LUSTRE_STRIPE_SIZE".data) (lustreReduce ws ss c) =
      if ss = [] then List.lookup ("LUSTRE_STRIPE_SIZE".data) c
      else some (intToStr (truncMean ss)) := by
  simp only [lustreReduce]
  by_cases hs : ss = []
  · simp only [hs, not_true_eq_false, if_false, if_pos hs]
    by_cases hw : ws = []
    · simp [hw]
    · simp only [ne_eq, hw, not_false_eq_true, if_true]
      exact lookup_csInsert_ne _ _ _ _ (by decide)
  · simp only [ne_eq, hs, not_false_eq_true, if_true, if_neg hs]
    by_cases hw : ws = []
    · simp only [hw, not_true_eq_false, if_false]
      exact lookup_csInsert_self _ _ _
    · simp only [hw, not_false_eq_true, if_true]
      exact lookup_csInsert_self _ _ _

/-- When the Lustre collection succeeds, `parse_darshan_file` on an
available totals report succeeds and produces the four passes composed
in source order. -/
theorem parse_darshan_file_ok (t p l : List Str) (ws ss : List Int)
    (hc : lustreCollect l ([], []) = .ok (ws, ss)) :
    parse_darshan_file ⟨some t, p, l⟩ =
      .ok (some (nprocsPass t (lustreReduce ws ss (perfPass p (totalsPass t []))))) := by
  simp only [parse_darshan_file, hc]

/-- Bumping one column changes exactly that column's tally count. -/
theorem tallyCount_bump (t : List (Str × Nat)) (h h2 : Str) :
    tallyCount (bump t h2) h = tallyCount t h + (if h = h2 then 1 else 0) := by
  induction t with
  | nil =>
    simp only [bump, tallyCount, List.lookup]
    by_cases he : h = h2
    · subst he
      simp [List.lookup]
    · have hb : (h == h2) = false := beq_eq_false_iff_ne.mpr he
      simp [List.lookup, hb, he]
  | cons e t ih =>
    cases e with
    | mk k n =>
      simp only [bump]
      by_cases hk : k = h2
      · subst hk
        by_cases he : h = k
        · subst he
          simp [tallyCount, List.lookup]
        · have hb : (h == k) = false := beq_eq_false_iff_ne.mpr he
          simp [tallyCount, List.lookup, hb, he]
      · simp only [if_neg hk]
        by_cases he : h = k
        · subst he
          simp [tallyCount, List.lookup, hk]
        · have hb : (h == k) = false := beq_eq_false_iff_ne.mpr he
          simp only [tallyCount, List.lookup, hb] at *
          exact ih

/-- Folding bumps over a list of columns adds each column's occurrence
count to its tally. -/
theorem tallyCount_foldl_bump (ds : List Str) (t : List (Str × Nat)) (h : Str) :
    tallyCount (ds.foldl bump t) h = tallyCount t h + ds.count h := by
  induction ds generalizing t with
  | nil => simp [List.count_nil]
  | cons d ds ih =>
    simp only [List.foldl_cons]
    rw [ih (bump t d), tallyCount_bump]
    have : ds.count h + (if h = d then 1 else 0) = (d :: ds).count h := by
      by_cases he : h = d
      · subst he
        simp [List.count_cons]
      · have hb : (d == h) = false := beq_eq_false_iff_ne.mpr (fun x => he x.symm)
        simp [List.count_cons, hb, he]
    omega

/-- Expected total number of tally increments for a column across a
list of files: each successfully parsed file contributes the number of
times the column was defaulted in its row. -/
noncomputable def missTotal (headers : List Str) (h : Str) : List Reports → Nat
  | [] => 0
  | r :: rest =>
    (match parse_darshan_file r with
     | .ok (some c) => (buildRow headers c).defaulted.count h
     | _ => 0) + missTotal headers h rest

/-- A completed loop's tally counts exactly the per-file defaulted
columns of the successfully parsed files. -/
theorem runLoop_tally (headers : List Str) (files : List Reports) (s s2 : RunState)
    (h : Str) (hr : runLoop headers files s = .ok s2) :
    tallyCount s2.tally h = tallyCount s.tally h + missTotal headers h files := by
  induction files generalizing s with
  | nil =>
    simp only [runLoop, Except.ok.injEq] at hr
    subst hr
    simp [missTotal]
  | cons r rest ih =>
    simp only [runLoop] at hr
    cases hp : parse_darshan_file r with
    | error e =>
      rw [hp] at hr
      cases hr
    | ok o =>
      cases o with
      | none =>
        rw [hp] at hr
        have := ih s hr
        simp only [missTotal, hp]
        omega
      | some c =>
        rw [hp] at hr
        have := ih _ hr
        rw [this]
        simp only [RunState.mk.injEq] at *
        simp only [missTotal, hp]
        have hb := tallyCount_foldl_bump ((buildRow headers c).defaulted) s.tally h
        simp only at hb
        omega

/-- The reserved column `tag` never reaches the defaulted branch, so it
never increments the global tally. -/
theorem tag_not_defaulted (S : List Str) (C : CounterSet) :
    ("tag".data) ∉ (buildRow S C).defaulted := by
  induction S with
  | nil => simp [buildRow]
  | cons h rest ih =>
    simp only [buildRow]
    by_cases ht : h = "tag".data
    · simp only [if_pos ht]
      cases List.lookup ("POSIX_PERF_MIBS".data) C <;> simpa using ih
    · simp only [if_neg ht]
      cases List.lookup h C with
      | some v => simpa using ih
      | none =>
        cases List.lookup ("total_".data ++ h) C with
        | some v => simpa using ih
        | none =>
          simp only [List.mem_cons]
          intro hmem
          cases hmem with
          | inl he => exact ht he.symm
          | inr he => exact ih he

/-- A schema containing `tag` whose CounterSet lacks `POSIX_PERF_MIBS`
reports the pseudo-entry in the per-file missing list. -/
theorem tag_missing_mem (S : List Str) (C : CounterSet)
    (hp : List.lookup ("POSIX_PERF_MIBS".data) C = none) (htag : ("tag".data) ∈ S) :
    ("POSIX_PERF_MIBS (for tag)".data) ∈ (buildRow S C).missing := by
  induction S with
  | nil => cases htag
  | cons h rest ih =>
    simp only [buildRow]
    by_cases ht : h = "tag".data
    · simp only [if_pos ht, hp]
      exact List.mem_cons_self _ _
    · have htag2 : ("tag".data) ∈ rest := by
        cases htag with
        | head => exact absurd rfl ht
        | tail _ hx => exact hx
      simp only [if_neg ht]
      cases List.lookup h C with
      | some v => simpa using ih htag2
      | none =>
        cases List.lookup ("total_".data ++ h) C with
        | some v => simpa using ih htag2
        | none => simpa using Or.inr (ih htag2)

/-- A `total_`-prefixed key is never the three-character key `tag`. -/
theorem total_prefix_ne_tag (h : Str) : ("total_".data ++ h) ≠ "tag".data := by
  intro he
  have := congrArg List.length he
  simp at this

/-! Claim theorems. -/

/-- C2: for every Schema `S` and CounterSet `C`, the row built by the
Schema Row Builder has exactly `S.length` numeric cells, in
schema-column order; no branch of the builder can reject or skip a
column. -/
theorem claim_C2_row_length (S : List Str) (C : CounterSet) :
    (buildRow S C).row.length = S.length := by
  induction S with
  | nil => rfl
  | cons h rest ih =>
    simp only [buildRow]
    by_cases ht : h = "tag".data
    · simp only [if_pos ht]
      cases List.lookup ("POSIX_PERF_MIBS".data) C <;> simp [ih]
    · simp only [if_neg ht]
      cases List.lookup h C with
      | some v => simp [ih]
      | none => cases List.lookup ("total_".data ++ h) C <;> simp [ih]

/-- C4: for a non-`tag` schema column, resolution tries the exact key
first (so an exact match wins whatever the `total_`-prefixed key holds),
then the `total_`-prefixed key; when neither resolves, the cell is the
literal `0.0` and the column joins the per-file missing list. -/
theorem claim_C4_resolution (h : Str) (rest : List Str) (c : CounterSet)
    (hne : h ≠ "tag".data) :
    (∀ v, List.lookup h c = some v →
       (buildRow (h :: rest) c).row = normalize_value (some v) :: (buildRow rest c).row
       ∧ (buildRow (h :: rest) c).missing = (buildRow rest c).missing)
    ∧ (List.lookup h c = none → ∀ v, List.lookup ("total_".data ++ h) c = some v →
       (buildRow (h :: rest) c).row = normalize_value (some v) :: (buildRow rest c).row
       ∧ (buildRow (h :: rest) c).missing = (buildRow rest c).missing)
    ∧ (List.lookup h c = none → List.lookup ("total_".data ++ h) c = none →
       (buildRow (h :: rest) c).row = FloatVal.num 0 :: (buildRow rest c).row
       ∧ (buildRow (h :: rest) c).missing = h :: (buildRow rest c).missing) := by
  refine ⟨?_, ?_, ?_⟩
  · intro v hv
    simp [buildRow, if_neg hne, hv]
  · intro h0 v hv
    have hv2 : List.lookup ('t' :: 'o' :: 't' :: 'a' :: 'l' :: '_' :: h) c = some v := hv
    simp [buildRow, if_neg hne, h0, hv2]
  · intro h0 h1
    have h12 : List.lookup ('t' :: 'o' :: 't' :: 'a' :: 'l' :: '_' :: h) c = none := h1
    simp [buildRow, if_neg hne, h0, h12]

/-- C10: the row built for a schema depends on the CounterSet only
through lookups at keys other than `tag`: the reserved column `tag`
reads `POSIX_PERF_MIBS`, and no other column ever looks up the key
`tag`, so two CounterSets differing only in an entry keyed `tag`
yield identical rows and identical diagnostics. -/
theorem claim_C10_tag_noninterference (S : List Str) (C C' : CounterSet)
    (hl : ∀ k, k ≠ "tag".data → List.lookup k C = List.lookup k C') :
    buildRow S C = buildRow S C' := by
  induction S with
  | nil => rfl
  | cons h rest ih =>
    simp only [buildRow, ih]
    by_cases ht : h = "tag".data
    · simp only [if_pos ht]
      rw [hl ("POSIX_PERF_MIBS".data) (by decide)]
    · simp only [if_neg ht]
      rw [hl h ht, hl ("total_".data ++ h) (total_prefix_ne_tag h)]

/-- Witness for C4: with both the exact and the prefixed key present the
exact match wins; with only the prefixed key the prefixed value is used;
with neither the cell defaults to `0.0` and the column is missing. -/
theorem claim_C4_resolution_witness :
    (buildRow ["x".data] [("x".data, "2".data), ("total_x".data, "3".data)]).row =
        [normalize_value (some ("2".data))]
    ∧ (buildRow ["y".data] [("total_y".data, "3".data)]).row =
        [normalize_value (some ("3".data))]
    ∧ (buildRow ["z".data] []).row = [FloatVal.num 0]
    ∧ (buildRow ["z".data] []).missing = ["z".data] :=
  ⟨((claim_C4_resolution ("x".data) [] [("x".data, "2".data), ("total_x".data, "3".data)]
      (by decide)).1 ("2".data) (by decide)).1,
   ((claim_C4_resolution ("y".data) [] [("total_y".data, "3".data)]
      (by decide)).2.1 (by decide) ("3".data) (by decide)).1,
   ((claim_C4_resolution ("z".data) [] [] (by decide)).2.2 (by decide) (by decide)).1,
   ((claim_C4_resolution ("z".data) [] [] (by decide)).2.2 (by decide) (by decide)).2⟩

/-- Witness for C10: adding an entry keyed `tag` to the CounterSet does
not change the built row even when the schema contains the `tag`
column. -/
theorem claim_C10_tag_noninterference_witness :
    buildRow ["tag".data, "x".data] [("tag".data, "99".data)] =
      buildRow ["tag".data, "x".data] [] :=
  claim_C10_tag_noninterference ["tag".data, "x".data] [("tag".data, "99".data)] []
    (by
      intro k hk
      have hb : (k == "tag".data) = false := beq_eq_false_iff_ne.mpr hk
      simp [List.lookup, hb])

/-- C1: the Normalizer parses the string with Python `float` semantics;
a parse yielding a finite value `q` returns `log10(q + 1)` under IEEE
log semantics (the real logarithm when `q + 1 > 0`, `-inf` at zero, NaN
below), special parses propagate through the IEEE semantics of
`log10(v + 1)`, and any parse failure (non-numeric, empty, or absent
input) returns the defined fallback `0.0` rather than an error. -/
theorem claim_C1_normalizer (s : Str) :
    (∀ q : ℚ, pyParseFloat s = some (PyFloat.finite q) → 0 < q + 1 →
       normalize_value (some s) = FloatVal.num (Real.logb 10 ((q : ℝ) + 1)))
    ∧ (∀ q : ℚ, pyParseFloat s = some (PyFloat.finite q) → q + 1 = 0 →
       normalize_value (some s) = FloatVal.neginf)
    ∧ (∀ q : ℚ, pyParseFloat s = some (PyFloat.finite q) → q + 1 < 0 →
       normalize_value (some s) = FloatVal.nan)
    ∧ (pyParseFloat s = some PyFloat.inf → normalize_value (some s) = FloatVal.inf)
    ∧ (pyParseFloat s = some PyFloat.neginf → normalize_value (some s) = FloatVal.nan)
    ∧ (pyParseFloat s = some PyFloat.nan → normalize_value (some s) = FloatVal.nan)
    ∧ (pyParseFloat s = none → normalize_value (some s) = FloatVal.num 0)
    ∧ normalize_value none = FloatVal.num 0 := by
  refine ⟨?_, ?_, ?_, ?_, ?_, ?_, ?_, rfl⟩
  · intro q h hq
    simp only [normalize_value, h, pyAdd1, np_log10, if_pos hq]
    norm_cast
  · intro q h hq
    have h1 : ¬(0 : ℚ) < q + 1 := by rw [hq]; exact lt_irrefl 0
    simp only [normalize_value, h, pyAdd1, np_log10, if_neg h1, if_pos hq]
  · intro q h hq
    have h1 : ¬(0 : ℚ) < q + 1 := not_lt_of_gt hq
    have h2 : ¬(q + 1 : ℚ) = 0 := ne_of_lt hq
    simp only [normalize_value, h, pyAdd1, np_log10, if_neg h1, if_neg h2]
  · intro h
    simp only [normalize_value, h, pyAdd1, np_log10]
  · intro h
    simp only [normalize_value, h, pyAdd1, np_log10]
  · intro h
    simp only [normalize_value, h, pyAdd1, np_log10]
  · intro h
    simp only [normalize_value, h]

/-- Witness for C1: `"42"` parses and is mapped to `log10(42 + 1)`, and
the non-numeric string `"abc"` falls back to `0.0`. -/
theorem claim_C1_normalizer_witness :
    normalize_value (some ("42".data)) = FloatVal.num (Real.logb 10 (((42 : ℚ) : ℝ) + 1))
    ∧ normalize_value (some ("abc".data)) = FloatVal.num 0 :=
  ⟨(claim_C1_normalizer ("42".data)).1 42 (by with_unfolding_all rfl)
      (by with_unfolding_all decide),
   (claim_C1_normalizer ("abc".data)).2.2.2.2.2.2.1 (by decide)⟩

/-- Counterexample to C7 as stated: the raw string `"inf"` parses under
Python `float` semantics, and the Normalizer returns positive infinity
for it — not a finite real number. -/
theorem claim_C7_counterexample :
    (normalize_value (some ("inf".data))).isFinite = false := by
  rfl

/-- C7 amended: the Normalizer's result is finite for every input that
fails to parse and for every input parsing to a finite value `q` with
`q + 1 > 0`; inputs such as `"inf"`, `"nan"`, or numerals at or below
`-1` escape to non-finite results. -/
theorem claim_C7_finiteness_amended (s : Str) :
    (∀ q : ℚ, pyParseFloat s = some (PyFloat.finite q) → 0 < q + 1 →
       (normalize_value (some s)).isFinite = true)
    ∧ (pyParseFloat s = none → (normalize_value (some s)).isFinite = true)
    ∧ (normalize_value none).isFinite = true := by
  refine ⟨?_, ?_, rfl⟩
  · intro q h hq
    simp only [normalize_value, h, pyAdd1, np_log10, if_pos hq, FloatVal.isFinite]
  · intro h
    simp only [normalize_value, h, FloatVal.isFinite]

/-- Witness for the amended C7: a numeric input and an empty input both
yield finite results. -/
theorem claim_C7_finiteness_amended_witness :
    (normalize_value (some ("3.5".data))).isFinite = true
    ∧ (normalize_value (some ("".data))).isFinite = true
    ∧ (normalize_value none).isFinite = true :=
  ⟨(claim_C7_finiteness_amended ("3.5".data)).1 (7 / 2) (by with_unfolding_all rfl)
      (by with_unfolding_all decide),
   (claim_C7_finiteness_amended ("".data)).2.1 (by decide),
   (claim_C7_finiteness_amended ("".data)).2.2⟩

/-- C3: a failed mandatory totals invocation makes the Parser return the
failure signal with no CounterSet; the Corpus Driver skips such a file
entirely (no row, no tally update) and continues with the rest; failed
performance or layout invocations (empty materialized reports) are
non-fatal, and parsing then yields exactly the keys of the totals and
nprocs passes. -/
theorem claim_C3_failure_handling :
    (∀ p l, parse_darshan_file ⟨none, p, l⟩ = .ok none)
    ∧ (∀ (hd : List Str) (r : Reports) (rest : List Reports) (s : RunState),
        parse_darshan_file r = .ok none →
        runLoop hd (r :: rest) s = runLoop hd rest s)
    ∧ (∀ t, parse_darshan_file ⟨some t, [], []⟩ =
        .ok (some (nprocsPass t (totalsPass t [])))) := by
  refine ⟨fun p l => rfl, ?_, fun t => rfl⟩
  intro hd r rest s hr
  simp only [runLoop, hr]

/-- Witness for C3: a file with a failed totals invocation is skipped
while the loop goes on, and a file whose performance and layout reports
are empty still parses from its totals report alone. -/
theorem claim_C3_failure_handling_witness :
    parse_darshan_file ⟨none, ["x".data], ["y".data]⟩ = .ok none
    ∧ runLoop ["a".data] [⟨none, [], []⟩] ⟨[], []⟩ = runLoop ["a".data] [] ⟨[], []⟩
    ∧ parse_darshan_file ⟨some [("total_POSIX_X: 1".data)], [], []⟩ =
        .ok (some (nprocsPass [("total_POSIX_X: 1".data)]
          (totalsPass [("total_POSIX_X: 1".data)] []))) :=
  ⟨claim_C3_failure_handling.1 ["x".data] ["y".data],
   claim_C3_failure_handling.2.1 ["a".data] ⟨none, [], []⟩ [] ⟨[], []⟩ (by rfl),
   claim_C3_failure_handling.2.2 [("total_POSIX_X: 1".data)]⟩

/-- Modelled from the words of claim C5: the stored value is "the
fragment after the first colon with any trailing `#` comment stripped
and whitespace trimmed". -/
def specAggValue (line : Str) : Str :=
  strip (takeUntilChar '#' (afterFirstChar ':' line))

/-- Counterexample to C5 as stated: on the line
`agg_perf_by_slowest: 1:2` (scanned while the module is POSIX) the code
stores `"1"` — `split(':')[1]` is the fragment between the first and
second colon — while the claim's description of the value yields
`"1:2"`; and a line containing both the aggregate marker and a
module-header marker is treated as a header, so nothing is stored even
though an `agg_perf_by_slowest` line was scanned while the module was
POSIX. -/
theorem claim_C5_counterexample :
    List.lookup ("POSIX_PERF_MIBS".data)
        (perfPass [("# POSIX module data".data), ("agg_perf_by_slowest: 1:2".data)] []) =
      some ("1".data)
    ∧ specAggValue ("agg_perf_by_slowest: 1:2".data) = "1:2".data
    ∧ ("1".data : Str) ≠ "1:2".data
    ∧ List.lookup ("POSIX_PERF_MIBS".data)
        (perfPass [("# POSIX module data".data),
          ("agg_perf_by_slowest: 5 # POSIX module data".data)] []) = none
    ∧ containsSub ("agg_perf_by_slowest:".data)
        ("agg_perf_by_slowest: 5 # POSIX module data".data) = true := by
  refine ⟨by decide, by decide, by decide, by decide, by decide⟩

/-- C5 amended: during the single scan, the counters are never written
while no POSIX module-header line has been seen (the module state starts
as none); a scan of a report with no aggregate-marker line leaves the
counters unchanged (so the key is absent unless it was already present);
a line containing the aggregate marker and no module-header marker,
scanned while the module is POSIX, stores the fragment between the first
and second colon (comment-stripped and trimmed); and no line scanned
while the module is not POSIX ever writes the counters. -/
theorem claim_C5_perf_scan_amended :
    (∀ (lines : List Str) (c : CounterSet),
       (∀ l ∈ lines, containsSub ("# POSIX module data".data) l = false) →
       (lines.foldl perfStep (none, c)).2 = c)
    ∧ (∀ (lines : List Str) (c : CounterSet),
       (∀ l ∈ lines, containsSub ("agg_perf_by_slowest:".data) l = false) →
       perfPass lines c = c)
    ∧ (∀ (c : CounterSet) (line : Str),
       containsSub ("agg_perf_by_slowest:".data) line = true →
       containsSub ("# POSIX module data".data) line = false →
       containsSub ("# MPI-IO module data".data) line = false →
       containsSub ("# STDIO module data".data) line = false →
       (perfStep (some ("POSIX".data), c) line).2 =
         csInsert ("POSIX_PERF_MIBS".data) (perfStoredValue line) c)
    ∧ (∀ (cur : Option Str) (c : CounterSet) (line : Str),
       cur ≠ some ("POSIX".data) → (perfStep (cur, c) line).2 = c) :=
  ⟨fun lines c hl => (perfFold_no_posix_header lines none c (by simp) hl).1,
   fun lines c hl => perfFold_no_agg lines none c hl,
   perfStep_store,
   perfStep_not_posix⟩

/-- Witness for the amended C5: a POSIX-free prefix stores nothing, an
aggregate-free report stores nothing, a POSIX aggregate line stores its
comment-stripped value, and a non-POSIX module never stores. -/
theorem claim_C5_perf_scan_amended_witness :
    (([("# MPI-IO module data".data), ("agg_perf_by_slowest: 9".data)].foldl perfStep
        (none, ([] : CounterSet))).2 = ([] : CounterSet))
    ∧ perfPass [("# POSIX module data".data)] [] = []
    ∧ (perfStep (some ("POSIX".data), ([] : CounterSet))
        ("agg_perf_by_slowest: 512.34 # MiB/s".data)).2 =
        csInsert ("POSIX_PERF_MIBS".data)
          (perfStoredValue ("agg_perf_by_slowest: 512.34 # MiB/s".data)) []
    ∧ (perfStep (some ("MPIIO".data), ([] : CounterSet)) ("agg_perf_by_slowest: 9".data)).2 =
        ([] : CounterSet) :=
  ⟨claim_C5_perf_scan_amended.1 _ _ (by decide),
   claim_C5_perf_scan_amended.2.1 _ _ (by decide),
   claim_C5_perf_scan_amended.2.2.1 _ _ (by decide) (by decide) (by decide) (by decide),
   claim_C5_perf_scan_amended.2.2.2 _ _ _ (by decide)⟩

/-- Counterexample to C6 as stated: with schema `[tag]` and one
successfully parsed file whose CounterSet lacks `POSIX_PERF_MIBS`, the
column is reported missing on that file (the per-file missing list is
non-empty), yet the run's MissingCounterTally records no count for it —
the claim demands a count of one. -/
theorem claim_C6_counterexample :
    (buildRow ["tag".data] []).missing = [("POSIX_PERF_MIBS (for tag)".data)]
    ∧ (process_darshan_logs ["tag".data] [⟨some [], [], []⟩]).rows.length = 1
    ∧ tallyCount (process_darshan_logs ["tag".data] [⟨some [], [], []⟩]).tally
        ("tag".data) = 0 := by
  refine ⟨by rfl, by rfl, by rfl⟩

/-- C6 amended: after a completed run, each column's tally count equals
the total number of times that column was defaulted (reported missing
through the non-`tag` branch) across the successfully parsed files; the
reserved column `tag` never reaches that branch, so a missing
`POSIX_PERF_MIBS` is recorded in the per-file missing list but never
increments the tally. -/
theorem claim_C6_tally_amended :
    (∀ (hd : List Str) (files : List Reports) (s : RunState) (h : Str),
       files ≠ [] → runLoop hd files ⟨[], []⟩ = .ok s →
       tallyCount (process_darshan_logs hd files).tally h = missTotal hd h files)
    ∧ (∀ (hd : List Str) (c : CounterSet), ("tag".data) ∉ (buildRow hd c).defaulted)
    ∧ (∀ (hd : List Str) (c : CounterSet),
       List.lookup ("POSIX_PERF_MIBS".data) c = none → ("tag".data) ∈ hd →
       ("POSIX_PERF_MIBS (for tag)".data) ∈ (buildRow hd c).missing) := by
  refine ⟨?_, tag_not_defaulted, tag_missing_mem⟩
  intro hd files s h hne hr
  have hie : files.isEmpty = false := by
    cases files with
    | nil => exact absurd rfl hne
    | cons a b => rfl
  have hh := runLoop_tally hd files ⟨[], []⟩ s h hr
  simp only [process_darshan_logs, hie, Bool.false_eq_true, if_false, hr]
  simpa [tallyCount, List.lookup] using hh

/-- Witness for the amended C6: a one-file run whose only column is
unresolved gets tally count equal to the defaulted total, the `tag`
column is never defaulted, and a missing `POSIX_PERF_MIBS` appears in
the per-file missing list. -/
theorem claim_C6_tally_amended_witness :
    tallyCount (process_darshan_logs ["a".data] [⟨some [], [], []⟩]).tally ("a".data) =
      missTotal ["a".data] ("a".data) [⟨some [], [], []⟩]
    ∧ ("tag".data) ∉ (buildRow ["tag".data] []).defaulted
    ∧ ("POSIX_PERF_MIBS (for tag)".data) ∈ (buildRow ["tag".data] []).missing :=
  ⟨claim_C6_tally_amended.1 ["a".data] [⟨some [], [], []⟩]
      ⟨[[FloatVal.num 0]], [("a".data, 1)]⟩ ("a".data) (by simp) (by rfl),
   claim_C6_tally_amended.2.1 ["tag".data] [],
   claim_C6_tally_amended.2.2 ["tag".data] [] (by rfl) (by simp)⟩

/-- Counterexample to C8 as stated: in the zero-file early-termination
path the scratch directory is created but the cleanup line is never
reached, and a per-file uncaught exception (a malformed Lustre integer)
likewise aborts the run before cleanup. -/
theorem claim_C8_counterexample :
    (process_darshan_logs ["a".data] []).tempDirRemoved = false
    ∧ (process_darshan_logs ["a".data]
        [⟨some [], [], [("LUSTRE_STRIPE_WIDTH\tx".data)]⟩]).tempDirRemoved = false
    ∧ (process_darshan_logs ["a".data]
        [⟨some [], [], [("LUSTRE_STRIPE_WIDTH\tx".data)]⟩]).crashed = true := by
  refine ⟨by rfl, by rfl, by rfl⟩

/-- C8 amended: the scratch directory is removed at the end of every run
that discovers at least one trace file and completes its per-file loop
without an uncaught exception (per-file parse failures of the mandatory
report do not prevent removal); in the zero-file early termination the
directory is created but not removed. -/
theorem claim_C8_cleanup_amended :
    (∀ (hd : List Str) (files : List Reports) (s : RunState),
       files ≠ [] → runLoop hd files ⟨[], []⟩ = .ok s →
       (process_darshan_logs hd files).tempDirRemoved = true)
    ∧ (∀ hd : List Str, (process_darshan_logs hd []).tempDirRemoved = false) := by
  constructor
  · intro hd files s hne hr
    have hie : files.isEmpty = false := by
      cases files with
      | nil => exact absurd rfl hne
      | cons a b => rfl
    simp only [process_darshan_logs, hie, Bool.false_eq_true, if_false, hr]
  · intro hd
    rfl

/-- Witness for the amended C8: a completed one-file run (with that
file's parse itself failing) removes the scratch directory, while the
zero-file run does not. -/
theorem claim_C8_cleanup_amended_witness :
    (process_darshan_logs ["a".data] [⟨none, [], []⟩]).tempDirRemoved = true
    ∧ (process_darshan_logs ["a".data] []).tempDirRemoved = false :=
  ⟨claim_C8_cleanup_amended.1 ["a".data] [⟨none, [], []⟩] ⟨[], []⟩ (by simp) (by rfl),
   claim_C8_cleanup_amended.2 ["a".data]⟩

/-- C9: when the Lustre collection over the layout report succeeds, the
parsed CounterSet maps each of `LUSTRE_STRIPE_WIDTH` and
`LUSTRE_STRIPE_SIZE` to the string form of the arithmetic mean of its
collected integer values truncated toward zero whenever that value list
is non-empty, and holds no entry for a field whose list is empty. -/
theorem claim_C9_lustre_mean (t p l : List Str) (ws ss : List Int)
    (hc : lustreCollect l ([], []) = .ok (ws, ss)) :
    ∃ c, parse_darshan_file ⟨some t, p, l⟩ = .ok (some c)
      ∧ (ws ≠ [] →
          List.lookup ("LUSTRE_STRIPE_WIDTH".data) c = some (intToStr (truncMean ws)))
      ∧ (ws = [] → List.lookup ("LUSTRE_STRIPE_WIDTH".data) c = none)
      ∧ (ss ≠ [] →
          List.lookup ("LUSTRE_STRIPE_SIZE".data) c = some (intToStr (truncMean ss)))
      ∧ (ss = [] → List.lookup ("LUSTRE_STRIPE_SIZE".data) c = none) := by
  refine ⟨_, parse_darshan_file_ok t p l ws ss hc, ?_, ?_, ?_, ?_⟩
  · intro hw
    rw [nprocsPass_lookup _ _ _ (by decide), lustreReduce_lookup_width, if_neg hw]
  · intro hw
    rw [nprocsPass_lookup _ _ _ (by decide), lustreReduce_lookup_width, if_pos hw,
      perfPass_lookup _ _ _ (by decide),
      totalsPass_lookup _ _ _ (by decide) (by decide)]
    rfl
  · intro hs
    rw [nprocsPass_lookup _ _ _ (by decide), lustreReduce_lookup_size, if_neg hs]
  · intro hs
    rw [nprocsPass_lookup _ _ _ (by decide), lustreReduce_lookup_size, if_pos hs,
      perfPass_lookup _ _ _ (by decide),
      totalsPass_lookup _ _ _ (by decide) (by decide)]
    rfl

/-- Witness for C9: a layout report with stripe widths 4 and 8 yields
`LUSTRE_STRIPE_WIDTH = "6"` (truncated mean) and no
`LUSTRE_STRIPE_SIZE` entry. -/
theorem claim_C9_lustre_mean_witness :
    (∃ c, parse_darshan_file ⟨some [], [],
        [("LUSTRE_STRIPE_WIDTH\t4".data), ("LUSTRE_STRIPE_WIDTH\t8".data)]⟩ = .ok (some c)
      ∧ (([4, 8] : List Int) ≠ [] →
          List.lookup ("LUSTRE_STRIPE_WIDTH".data) c = some (intToStr (truncMean [4, 8])))
      ∧ (([4, 8] : List Int) = [] → List.lookup ("LUSTRE_STRIPE_WIDTH".data) c = none)
      ∧ (([] : List Int) ≠ [] →
          List.lookup ("LUSTRE_STRIPE_SIZE".data) c = some (intToStr (truncMean [])))
      ∧ (([] : List Int) = [] → List.lookup ("LUSTRE_STRIPE_SIZE".data) c = none))
    ∧ intToStr (truncMean [4, 8]) = "6".data :=
  ⟨claim_C9_lustre_mean [] []
      [("LUSTRE_STRIPE_WIDTH\t4".data), ("LUSTRE_STRIPE_WIDTH\t8".data)] [4, 8] []
      (by rfl),
   by with_unfolding_all rfl⟩
